import Mathlib

/-
Verification of the ws2812-spi prerendered_static driver.

The source file src/prerendered_static.rs is shallowly embedded below.
Machine bytes are modelled as Nat with explicit `% 256` where the source
relies on u8 wraparound; a Rust index-out-of-bounds panic is modelled as
the `none` result of an Option-valued operation; the SPI peripheral is an
abstract state type with fallible send/read operations, and every
performed SPI operation is recorded in an explicit trace so that the
transmission sequencing claims can be stated.
-/

namespace Ws2812Spi

/-- One 8-bit-per-channel color, mirroring smart_leds_trait RGB8. -/
structure RGB8 where
  r : Nat
  g : Nat
  b : Nat
deriving DecidableEq

/-- One SPI bus operation as observed on the wire: a byte sent, or a
blocking read that drains the receive register. -/
inductive SpiOp where
  | send (b : Nat)
  | read
deriving DecidableEq

/-- The FullDuplex SPI capability consumed by the driver: a state type
sigma with a fallible blocking send and a fallible blocking read. -/
structure Spi (σ E : Type) where
  send : σ → Nat → Except E σ
  read : σ → Except E (Nat × σ)

/-- The driver struct Ws2812 of prerendered_static.rs: the owned SPI
handle (its state), the channel byte buffer, and the fill cursor.  In
the source the buffer has fixed length N * 3 for const generic N. -/
structure Ws2812 (σ : Type) where
  spi : σ
  data : List Nat
  index : Nat
deriving DecidableEq

/-- Construction (Ws2812::new for capacity N): zero-filled buffer of
length N * 3 and cursor 0; the SPI handle is not touched. -/
def Ws2812.new (spi : σ) (N : Nat) : Ws2812 σ :=
  { spi := spi, data := List.replicate (N * 3) 0, index := 0 }

/-- Operation value_at of the source: raw read of one buffer slot.  The source
indexes the array directly, so an out-of-range index is a panic,
modelled as none. -/
def value_at (st : Ws2812 σ) (index : Nat) : Option Nat :=
  st.data.get? index

/-- Operation set_value_at of the source: raw write of one buffer slot. -/
def set_value_at (st : Ws2812 σ) (index : Nat) (value : Nat) : Option (Ws2812 σ) :=
  if index < st.data.length then
    some { st with data := st.data.set index value }
  else none

/-- Operation led_color of the source: rebuild an RGB8 from the three slots at
offset index * 3, in (r, g, b) slot order.  Out-of-range is a panic,
modelled as none. -/
def led_color (st : Ws2812 σ) (index : Nat) : Option RGB8 := do
  let offset := index * 3
  let r ← st.data.get? offset
  let g ← st.data.get? (offset + 1)
  let b ← st.data.get? (offset + 2)
  pure { r := r, g := g, b := b }

/-- Operation set_led_color of the source: write color.r, color.g, color.b at
offset, offset+1, offset+2 where offset = index * 3.  A write past the
end of the buffer is a panic, modelled as none. -/
def set_led_color (st : Ws2812 σ) (index : Nat) (color : RGB8) : Option (Ws2812 σ) :=
  let offset := index * 3
  if offset + 2 < st.data.length then
    some { st with
      data := ((st.data.set offset color.r).set (offset + 1) color.g).set (offset + 2) color.b }
  else none

/-- The four fixed waveform bytes of write_byte. -/
def patterns : List Nat := [0b10001000, 0b10001110, 0b11101000, 0b11101110]

/-- The loop body of write_byte, iterated 4 times: take the top two bits
of the (u8) working value, store the matching pattern byte at the fill
cursor, advance the cursor, shift the working value left by two (with u8
wraparound).  A store at an out-of-range cursor is a panic (none). -/
def write_byte_loop : Nat → Nat → Ws2812 σ → Option (Ws2812 σ)
  | 0, _, st => some st
  | n + 1, data_in, st =>
    let bits := (data_in &&& 0b11000000) >>> 6
    if st.index < st.data.length then
      write_byte_loop n ((data_in <<< 2) % 256)
        { st with data := st.data.set st.index (patterns.getD bits 0), index := st.index + 1 }
    else none

/-- Operation write_byte of the source: expand one channel byte into 4 waveform
bytes appended at the fill cursor. -/
def write_byte (st : Ws2812 σ) (data_in : Nat) : Option (Ws2812 σ) :=
  write_byte_loop 4 data_in st

/-- The for-loop of SmartLedsWrite::write: for every color, encode the
green, then red, then blue channel via write_byte. -/
def fillLoop : Ws2812 σ → List RGB8 → Option (Ws2812 σ)
  | st, [] => some st
  | st, item :: rest => do
    let st1 ← write_byte st item.g
    let st2 ← write_byte st1 item.r
    let st3 ← write_byte st2 item.b
    fillLoop st3 rest

/-- One blocking send, recording the operation in the trace; on failure
the error is paired with the trace up to and including the failing
operation. -/
def trySend (I : Spi σ E) (b : Nat) (s : σ) (tr : List SpiOp) :
    Except (E × List SpiOp) (σ × List SpiOp) :=
  match I.send s b with
  | Except.ok s1 => Except.ok (s1, tr ++ [SpiOp.send b])
  | Except.error e => Except.error (e, tr ++ [SpiOp.send b])

/-- One blocking read-and-discard, recording the operation. -/
def tryRead (I : Spi σ E) (s : σ) (tr : List SpiOp) :
    Except (E × List SpiOp) (σ × List SpiOp) :=
  match I.read s with
  | Except.ok p => Except.ok (p.2, tr ++ [SpiOp.read])
  | Except.error e => Except.error (e, tr ++ [SpiOp.read])

/-- The `for _ in 0..n { send(0); read(); }` padding loop of send_data. -/
def padLoop (I : Spi σ E) : Nat → σ → List SpiOp → Except (E × List SpiOp) (σ × List SpiOp)
  | 0, s, tr => Except.ok (s, tr)
  | n + 1, s, tr => do
    let p1 ← trySend I 0 s tr
    let p2 ← tryRead I p1.1 p1.2
    padLoop I n p2.1 p2.2

/-- The `for b in self.data[..self.index] { send(*b); read(); }` payload
loop of send_data. -/
def payloadLoop (I : Spi σ E) : List Nat → σ → List SpiOp → Except (E × List SpiOp) (σ × List SpiOp)
  | [], s, tr => Except.ok (s, tr)
  | b :: rest, s, tr => do
    let p1 ← trySend I b s tr
    let p2 ← tryRead I p1.1 p1.2
    payloadLoop I rest p2.1 p2.2

/-- Operation send_data of the source.  The mosi_idle_high cargo feature is the
boolean parameter idle.  Sequence: one zero lead send (no read), the
optional 140-cycle idle padding, the filled buffer prefix
data[..index] each send paired with a read, 140 trailing pad cycles,
and one final read that retires the lead byte. -/
def send_data (I : Spi σ E) (idle : Bool) (st : Ws2812 σ) :
    Except (E × List SpiOp) (Ws2812 σ × List SpiOp) := do
  let p1 ← trySend I 0 st.spi []
  let p2 ← if idle then padLoop I 140 p1.1 p1.2 else pure p1
  let p3 ← payloadLoop I (st.data.take st.index) p2.1 p2.2
  let p4 ← padLoop I 140 p3.1 p3.2
  let p5 ← tryRead I p4.1 p4.2
  pure ({ st with spi := p5.1 }, p5.2)

/-- Operation SmartLedsWrite::write of the source: reset the fill cursor to 0,
encode every color (green, red, blue) via write_byte, then transmit via
send_data.  A buffer overrun inside write_byte is a panic (none). -/
def write (I : Spi σ E) (idle : Bool) (st : Ws2812 σ) (iterator : List RGB8) :
    Option (Except (E × List SpiOp) (Ws2812 σ × List SpiOp)) :=
  (fillLoop { st with index := 0 } iterator).map (fun st2 => send_data I idle st2)

/-- The sequence of pattern bytes produced by n iterations of the
write_byte loop on a working value, without the buffer stores: the pure
content of what write_byte writes. -/
def encLoop : Nat → Nat → List Nat
  | 0, _ => []
  | n + 1, data_in =>
    patterns.getD ((data_in &&& 0b11000000) >>> 6) 0 :: encLoop n ((data_in <<< 2) % 256)

/-- The fixed 2-bit-group lookup exactly as the specification states it:
00, 01, 10, 11 to the four waveform bytes. -/
def wlookup : Nat → Nat
  | 0 => 0b10001000
  | 1 => 0b10001110
  | 2 => 0b11101000
  | _ => 0b11101110

/-- Specification-side encoder: partition a byte into four 2-bit groups,
most significant group first, and map each through wlookup. -/
def encodeByte (b : Nat) : List Nat :=
  [wlookup ((b >>> 6) % 4), wlookup ((b >>> 4) % 4), wlookup ((b >>> 2) % 4), wlookup (b % 4)]

/-- The bytes that fillLoop appends for a color list: for each color the
4-byte encodings of green, red, blue, in that order (loop content form). -/
def rawStream : List RGB8 → List Nat
  | [] => []
  | c :: rest => encLoop 4 c.g ++ (encLoop 4 c.r ++ (encLoop 4 c.b ++ rawStream rest))

/-- Specification-side form of the encoded payload: for each color the
encodeByte expansions of green, red, blue, in that order. -/
def encodedStream : List RGB8 → List Nat
  | [] => []
  | c :: rest => encodeByte c.g ++ (encodeByte c.r ++ (encodeByte c.b ++ encodedStream rest))

/-- Overwrite consecutive buffer slots starting at position i with the
given bytes (the cumulative effect of a run of write_byte stores). -/
def writeSlice : List Nat → Nat → List Nat → List Nat
  | d, _, [] => d
  | d, i, x :: xs => writeSlice (d.set i x) (i + 1) xs

/-- The wire operations of the paired send/read loop over a byte list. -/
def payloadOps : List Nat → List SpiOp
  | [] => []
  | b :: rest => SpiOp.send b :: SpiOp.read :: payloadOps rest

/-- The wire operations of n zero-padding send/read cycles. -/
def padOps (n : Nat) : List SpiOp :=
  payloadOps (List.replicate n 0)

/-- The full wire-operation sequence of one send_data call: the lone
lead send, the optional idle padding, the payload pairs, the trailing
padding, and the final lead-retiring read. -/
def sendDataOps (idle : Bool) (payload : List Nat) : List SpiOp :=
  [SpiOp.send 0] ++ (if idle then padOps 140 else []) ++ payloadOps payload ++
    padOps 140 ++ [SpiOp.read]

/-- Execute one wire operation against the SPI model. -/
def stepOp (I : Spi σ E) (op : SpiOp) (s : σ) : Except E σ :=
  match op with
  | SpiOp.send b => I.send s b
  | SpiOp.read => (I.read s).map (fun p => p.2)

/-- Execute a list of wire operations in order, accumulating the trace
of attempted operations; the first failure stops execution and carries
the trace up to and including the failing operation. -/
def runOps (I : Spi σ E) : List SpiOp → σ → List SpiOp → Except (E × List SpiOp) (σ × List SpiOp)
  | [], s, tr => Except.ok (s, tr)
  | op :: rest, s, tr =>
    match stepOp I op s with
    | Except.ok s1 => runOps I rest s1 (tr ++ [op])
    | Except.error e => Except.error (e, tr ++ [op])

/-- The trace of attempted wire operations of a transmission result,
successful or not. -/
def traceOf : Except (E × List SpiOp) (α × List SpiOp) → List SpiOp
  | Except.ok p => p.2
  | Except.error p => p.2

/-- The error surfaced by a transmission result, if any. -/
def errOf : Except (E × List SpiOp) (α × List SpiOp) → Option E
  | Except.ok _ => none
  | Except.error p => some p.1

/-- An SPI model that always accepts sends and always has a byte to
read: the reliable bus used to exercise the successful paths. -/
def okSpi : Spi Unit Unit :=
  { send := fun s _ => Except.ok s, read := fun s => Except.ok (0, s) }

/-- An SPI model whose state counts performed operations and whose k-th
operation (0-based) fails with error e: used to exercise the failure
path at an arbitrary point of the sequence. -/
def failSpi (k : Nat) (e : E) : Spi Nat E :=
  { send := fun c _ => if c = k then Except.error e else Except.ok (c + 1),
    read := fun c => if c = k then Except.error e else Except.ok (0, c + 1) }

/-- Whether a wire operation is a send. -/
def isSend : SpiOp → Bool
  | SpiOp.send _ => true
  | SpiOp.read => false

/-- Whether adjacent operations of a trace strictly alternate between
sends and reads. -/
def altern : List SpiOp → Bool
  | [] => true
  | [_] => true
  | a :: b :: rest => (isSend a != isSend b) && altern (b :: rest)

/-! ### List helper lemmas -/

theorem getq_set_self (l : List Nat) (i : Nat) (x : Nat) (h : i < l.length) :
    (l.set i x).get? i = some x := by
  induction l generalizing i with
  | nil => simp at h
  | cons a l ih =>
    cases i with
    | zero => rfl
    | succ j =>
      simp only [List.set, List.get?]
      exact ih j (by simpa using h)

theorem getq_set_other (l : List Nat) (i j : Nat) (x : Nat) (h : i ≠ j) :
    (l.set i x).get? j = l.get? j := by
  induction l generalizing i j with
  | nil => simp
  | cons a l ih =>
    cases i with
    | zero =>
      cases j with
      | zero => exact absurd rfl h
      | succ m => rfl
    | succ n =>
      cases j with
      | zero => rfl
      | succ m =>
        simp only [List.set, List.get?]
        exact ih n m (by omega)

theorem getq_eq_getD (l : List Nat) (n : Nat) (h : n < l.length) :
    l.get? n = some (l.getD n 0) := by
  induction l generalizing n with
  | nil => simp at h
  | cons a l ih =>
    cases n with
    | zero => rfl
    | succ m =>
      simp only [List.get?, List.getD, List.getElem?_cons_succ]
      simpa using ih m (by simpa using h)

/-! ### writeSlice lemmas -/

theorem length_writeSlice (xs : List Nat) : ∀ (d : List Nat) (i : Nat),
    (writeSlice d i xs).length = d.length := by
  induction xs with
  | nil => intro d i; rfl
  | cons x xs ih =>
    intro d i
    simp only [writeSlice]
    rw [ih, List.length_set]

theorem writeSlice_append (xs : List Nat) : ∀ (d : List Nat) (i : Nat) (ys : List Nat),
    writeSlice d i (xs ++ ys) = writeSlice (writeSlice d i xs) (i + xs.length) ys := by
  induction xs with
  | nil => intro d i ys; simp [writeSlice]
  | cons x xs ih =>
    intro d i ys
    rw [List.cons_append]
    simp only [writeSlice, List.length_cons]
    rw [ih]
    have h : i + 1 + xs.length = i + (xs.length + 1) := by omega
    rw [h]

theorem take_set_succ (l : List Nat) : ∀ (i : Nat) (x : Nat), i < l.length →
    (l.set i x).take (i + 1) = l.take i ++ [x] := by
  induction l with
  | nil => intro i x h; simp at h
  | cons a l ih =>
    intro i x h
    cases i with
    | zero => rfl
    | succ j =>
      simp only [List.set, List.take, List.cons_append]
      rw [ih j x (by simpa using h)]

theorem drop_set_gt (l : List Nat) : ∀ (i m : Nat) (x : Nat), i < m →
    (l.set i x).drop m = l.drop m := by
  induction l with
  | nil => intro i m x h; simp
  | cons a l ih =>
    intro i m x h
    cases i with
    | zero =>
      cases m with
      | zero => omega
      | succ k => rfl
    | succ n =>
      cases m with
      | zero => omega
      | succ k =>
        simp only [List.set, List.drop]
        exact ih n k x (by omega)

theorem writeSlice_eq (xs : List Nat) : ∀ (d : List Nat) (i : Nat),
    i + xs.length ≤ d.length →
    writeSlice d i xs = d.take i ++ xs ++ d.drop (i + xs.length) := by
  induction xs with
  | nil =>
    intro d i _
    simp [writeSlice]
  | cons x xs ih =>
    intro d i h
    have hi : i < d.length := by simp at h; omega
    simp only [writeSlice]
    rw [ih (d.set i x) (i + 1) (by simp at h ⊢; omega)]
    rw [take_set_succ d i x hi]
    rw [drop_set_gt d i (i + 1 + xs.length) x (by omega)]
    have harith : i + 1 + xs.length = i + (xs.length + 1) := by omega
    rw [harith]
    simp [List.append_assoc]

/-! ### write_byte lemmas -/

theorem length_encLoop (n : Nat) : ∀ (b : Nat), (encLoop n b).length = n := by
  induction n with
  | zero => intro b; rfl
  | succ m ih => intro b; simp only [encLoop, List.length_cons, ih]

theorem write_byte_loop_ok (n : Nat) : ∀ (st : Ws2812 σ) (b : Nat),
    st.index + n ≤ st.data.length →
    write_byte_loop n b st =
      some { spi := st.spi, data := writeSlice st.data st.index (encLoop n b),
             index := st.index + n } := by
  induction n with
  | zero =>
    intro st b _
    simp [write_byte_loop, encLoop, writeSlice]
  | succ m ih =>
    intro st b h
    have hlt : st.index < st.data.length := by omega
    simp only [write_byte_loop, hlt, if_true]
    rw [ih _ _ (by simp; omega)]
    simp only [encLoop, writeSlice]
    congr 1
    congr 1
    omega

theorem write_byte_ok (st : Ws2812 σ) (b : Nat) (h : st.index + 4 ≤ st.data.length) :
    write_byte st b =
      some { spi := st.spi, data := writeSlice st.data st.index (encLoop 4 b),
             index := st.index + 4 } :=
  write_byte_loop_ok 4 st b h

set_option maxRecDepth 8192 in
/-- The loop content of write_byte agrees with the specification-side
encoder on every byte value. -/
theorem encLoop4_eq_encodeByte : ∀ b : Nat, b < 256 → encLoop 4 b = encodeByte b := by
  decide

/-! ### fillLoop and stream lemmas -/

theorem length_rawStream : ∀ (colors : List RGB8),
    (rawStream colors).length = 12 * colors.length := by
  intro colors
  induction colors with
  | nil => rfl
  | cons c rest ih =>
    simp only [rawStream, List.length_append, length_encLoop, ih, List.length_cons]
    omega

theorem length_encodedStream : ∀ (colors : List RGB8),
    (encodedStream colors).length = 12 * colors.length := by
  intro colors
  induction colors with
  | nil => rfl
  | cons c rest ih =>
    simp only [encodedStream, List.length_append, ih, List.length_cons, encodeByte,
      List.length_nil]
    omega

theorem rawStream_eq_encodedStream : ∀ (colors : List RGB8),
    (∀ c ∈ colors, c.r < 256 ∧ c.g < 256 ∧ c.b < 256) →
    rawStream colors = encodedStream colors := by
  intro colors
  induction colors with
  | nil => intro _; rfl
  | cons c rest ih =>
    intro h
    have hc := h c (by simp)
    simp only [rawStream, encodedStream]
    rw [encLoop4_eq_encodeByte c.g hc.2.1, encLoop4_eq_encodeByte c.r hc.1,
      encLoop4_eq_encodeByte c.b hc.2.2, ih (fun x hx => h x (by simp [hx]))]

theorem fillLoop_ok : ∀ (colors : List RGB8) (st : Ws2812 σ),
    st.index + 12 * colors.length ≤ st.data.length →
    fillLoop st colors =
      some { spi := st.spi, data := writeSlice st.data st.index (rawStream colors),
             index := st.index + 12 * colors.length } := by
  intro colors
  induction colors with
  | nil =>
    intro st _
    simp [fillLoop, rawStream, writeSlice]
  | cons c rest ih =>
    intro st h
    have hlen : st.index + 12 * rest.length + 12 ≤ st.data.length := by
      simp only [List.length_cons] at h; omega
    have hdata : writeSlice st.data st.index (rawStream (c :: rest)) =
        writeSlice (writeSlice (writeSlice (writeSlice st.data st.index (encLoop 4 c.g))
          (st.index + 4) (encLoop 4 c.r)) (st.index + 4 + 4) (encLoop 4 c.b))
          (st.index + 4 + 4 + 4) (rawStream rest) := by
      simp only [rawStream]
      rw [writeSlice_append (encLoop 4 c.g), length_encLoop]
      rw [writeSlice_append (encLoop 4 c.r), length_encLoop]
      rw [writeSlice_append (encLoop 4 c.b), length_encLoop]
    have e1 := write_byte_ok st c.g (by omega)
    simp only [fillLoop]
    rw [e1]
    simp only [Option.bind_eq_bind, Option.some_bind]
    rw [write_byte_ok _ c.r (by simp [length_writeSlice]; omega)]
    simp only [Option.some_bind]
    rw [write_byte_ok _ c.b (by simp [length_writeSlice]; omega)]
    simp only [Option.some_bind]
    rw [ih _ (by simp [length_writeSlice]; omega)]
    dsimp only
    rw [← hdata]
    have hidx : st.index + 4 + 4 + 4 + 12 * rest.length = st.index + 12 * (c :: rest).length := by
      simp only [List.length_cons]; omega
    rw [hidx]

/-! ### Wire-operation machinery -/

theorem trySend_eq (I : Spi σ E) (b : Nat) (s : σ) (tr : List SpiOp) :
    trySend I b s tr = runOps I [SpiOp.send b] s tr := by
  cases hs : I.send s b with
  | ok s1 => simp [trySend, runOps, stepOp, hs]
  | error e => simp [trySend, runOps, stepOp, hs]

theorem tryRead_eq (I : Spi σ E) (s : σ) (tr : List SpiOp) :
    tryRead I s tr = runOps I [SpiOp.read] s tr := by
  cases hr : I.read s with
  | ok p => simp [tryRead, runOps, stepOp, hr, Except.map]
  | error e => simp [tryRead, runOps, stepOp, hr, Except.map]

theorem padOps_succ (n : Nat) :
    padOps (n + 1) = SpiOp.send 0 :: SpiOp.read :: padOps n := rfl

theorem padLoop_eq (I : Spi σ E) (n : Nat) : ∀ (s : σ) (tr : List SpiOp),
    padLoop I n s tr = runOps I (padOps n) s tr := by
  induction n with
  | zero => intro s tr; rfl
  | succ m ih =>
    intro s tr
    rw [padOps_succ]
    cases hs : I.send s 0 with
    | error e => simp [padLoop, trySend, hs, runOps, stepOp, Bind.bind, Except.bind]
    | ok s1 =>
      cases hr : I.read s1 with
      | error e =>
        simp [padLoop, trySend, tryRead, hs, hr, runOps, stepOp, Bind.bind, Except.bind,
          Except.map]
      | ok p =>
        simp [padLoop, trySend, tryRead, hs, hr, runOps, stepOp, Bind.bind, Except.bind,
          Except.map, ih]

theorem payloadLoop_eq (I : Spi σ E) (l : List Nat) : ∀ (s : σ) (tr : List SpiOp),
    payloadLoop I l s tr = runOps I (payloadOps l) s tr := by
  induction l with
  | nil => intro s tr; rfl
  | cons b rest ih =>
    intro s tr
    cases hs : I.send s b with
    | error e =>
      simp [payloadLoop, payloadOps, trySend, hs, runOps, stepOp, Bind.bind, Except.bind]
    | ok s1 =>
      cases hr : I.read s1 with
      | error e =>
        simp [payloadLoop, payloadOps, trySend, tryRead, hs, hr, runOps, stepOp, Bind.bind,
          Except.bind, Except.map]
      | ok p =>
        simp [payloadLoop, payloadOps, trySend, tryRead, hs, hr, runOps, stepOp, Bind.bind,
          Except.bind, Except.map, ih]

theorem runOps_append (I : Spi σ E) (l1 : List SpiOp) : ∀ (l2 : List SpiOp) (s : σ) (tr : List SpiOp),
    runOps I (l1 ++ l2) s tr = Except.bind (runOps I l1 s tr) (fun p => runOps I l2 p.1 p.2) := by
  induction l1 with
  | nil => intro l2 s tr; rfl
  | cons op rest ih =>
    intro l2 s tr
    rw [List.cons_append]
    simp only [runOps]
    cases hs : stepOp I op s with
    | ok s1 => simp [ih]
    | error e => simp [Except.bind]

theorem exbind_assoc (x : Except ε α) (f : α → Except ε β) (g : β → Except ε γ) :
    Except.bind (Except.bind x f) g = Except.bind x (fun a => Except.bind (f a) g) := by
  cases x <;> rfl

theorem exmap_def (x : Except ε α) (f : α → β) :
    Except.map f x = Except.bind x (fun a => Except.ok (f a)) := by
  cases x <;> rfl

/-- Operation send_data is exactly the execution of the static operation sequence
sendDataOps over the filled buffer prefix, with the resulting SPI state
stored back in the struct. -/
theorem send_data_eq (I : Spi σ E) (idle : Bool) (st : Ws2812 σ) :
    send_data I idle st =
      Except.map (fun p => ({ st with spi := p.1 }, p.2))
        (runOps I (sendDataOps idle (st.data.take st.index)) st.spi []) := by
  cases idle with
  | false =>
    simp only [send_data, sendDataOps, if_neg (by simp : ¬ (false = true)), List.nil_append]
    simp only [runOps_append, exmap_def, exbind_assoc, ← trySend_eq, ← tryRead_eq,
      ← padLoop_eq, ← payloadLoop_eq]
    rfl
  | true =>
    simp only [send_data, sendDataOps, if_pos (rfl : true = true), if_true]
    simp only [runOps_append, exmap_def, exbind_assoc, if_true, ← trySend_eq, ← tryRead_eq,
      ← padLoop_eq, ← payloadLoop_eq]
    rfl

/-- A successful run performs exactly the requested operations, in order. -/
theorem runOps_ok (I : Spi σ E) (ops : List SpiOp) : ∀ (s : σ) (tr : List SpiOp) (s1 : σ)
    (tr1 : List SpiOp), runOps I ops s tr = Except.ok (s1, tr1) → tr1 = tr ++ ops := by
  induction ops with
  | nil =>
    intro s tr s1 tr1 h
    simp only [runOps, Except.ok.injEq, Prod.mk.injEq] at h
    simp [← h.2]
  | cons op rest ih =>
    intro s tr s1 tr1 h
    simp only [runOps] at h
    cases hs : stepOp I op s with
    | ok s2 =>
      rw [hs] at h
      simp only at h
      have := ih _ _ _ _ h
      simpa [List.append_assoc] using this
    | error e =>
      rw [hs] at h
      simp at h

/-- Before the failing index, the counting SPI model executes every
operation and counts them. -/
theorem runOps_failSpi_ok (k : Nat) (e : E) (ops : List SpiOp) : ∀ (c : Nat) (tr : List SpiOp),
    c + ops.length ≤ k →
    runOps (failSpi k e) ops c tr = Except.ok (c + ops.length, tr ++ ops) := by
  induction ops with
  | nil => intro c tr _; simp [runOps]
  | cons op rest ih =>
    intro c tr h
    have hck : ¬ (c = k) := by simp only [List.length_cons] at h; omega
    have hstep : stepOp (failSpi k e) op c = Except.ok (c + 1) := by
      cases op <;> simp [stepOp, failSpi, hck, Except.map]
    simp only [runOps, hstep]
    rw [ih (c + 1) (tr ++ [op]) (by simp only [List.length_cons] at h ⊢; omega)]
    simp only [List.length_cons, List.append_assoc, List.singleton_append, Except.ok.injEq,
      Prod.mk.injEq]
    exact ⟨by omega, trivial⟩

/-- If the failing index falls inside the requested operations, the run
stops at exactly that operation and surfaces the injected error. -/
theorem runOps_failSpi_err (k : Nat) (e : E) (ops : List SpiOp) : ∀ (c : Nat) (tr : List SpiOp),
    c ≤ k → k < c + ops.length →
    runOps (failSpi k e) ops c tr = Except.error (e, tr ++ ops.take (k + 1 - c)) := by
  induction ops with
  | nil => intro c tr h1 h2; simp only [List.length_nil] at h2; omega
  | cons op rest ih =>
    intro c tr h1 h2
    by_cases hck : c = k
    · subst hck
      have hstep : stepOp (failSpi c e) op c = Except.error e := by
        cases op <;> simp [stepOp, failSpi, Except.map]
      simp only [runOps, hstep]
      have h1 : c + 1 - c = 1 := by omega
      rw [h1]
      rfl
    · have hstep : stepOp (failSpi k e) op c = Except.ok (c + 1) := by
        cases op <;> simp [stepOp, failSpi, hck, Except.map]
      simp only [runOps, hstep]
      rw [ih (c + 1) (tr ++ [op]) (by omega) (by simp only [List.length_cons] at h2 ⊢; omega)]
      have htake : (op :: rest).take (k + 1 - c) = op :: rest.take (k - c) := by
        have h3 : k + 1 - c = (k - c) + 1 := by omega
        rw [h3]
        rfl
      have h4 : k + 1 - (c + 1) = k - c := by omega
      rw [htake, h4]
      simp [List.append_assoc]

/-- A successful send_data call has performed exactly the sendDataOps
sequence over the filled buffer prefix, and has left the buffer and the
fill cursor untouched. -/
theorem send_data_ok (I : Spi σ E) (idle : Bool) (st st1 : Ws2812 σ) (tr : List SpiOp)
    (h : send_data I idle st = Except.ok (st1, tr)) :
    tr = sendDataOps idle (st.data.take st.index) ∧ st1.data = st.data ∧
      st1.index = st.index := by
  rw [send_data_eq] at h
  cases hr : runOps I (sendDataOps idle (st.data.take st.index)) st.spi [] with
  | error p =>
    rw [hr] at h
    simp [Except.map] at h
  | ok p =>
    obtain ⟨s0, tr0⟩ := p
    rw [hr] at h
    simp only [Except.map, Except.ok.injEq, Prod.mk.injEq] at h
    have htr := runOps_ok I _ _ _ _ _ hr
    simp only [List.nil_append] at htr
    refine ⟨by rw [← h.2, htr], ?_, ?_⟩
    · rw [← h.1]
    · rw [← h.1]

theorem traceOf_map (r : Except (E × List SpiOp) (α × List SpiOp)) (g : α × List SpiOp → β) :
    traceOf (Except.map (fun p => (g p, p.2)) r) = traceOf r := by
  cases r <;> rfl

theorem errOf_map (r : Except (E × List SpiOp) (α × List SpiOp))
    (f : α × List SpiOp → β × List SpiOp) :
    errOf (Except.map f r) = errOf r := by
  cases r <;> rfl

theorem countP_payloadOps_send (l : List Nat) :
    (payloadOps l).countP (fun op => isSend op) = l.length := by
  induction l with
  | nil => rfl
  | cons b rest ih =>
    simp only [payloadOps, List.countP_cons, ih]
    rfl

theorem countP_payloadOps_read (l : List Nat) :
    (payloadOps l).countP (fun op => !isSend op) = l.length := by
  induction l with
  | nil => rfl
  | cons b rest ih =>
    simp only [payloadOps, List.countP_cons, ih]
    rfl

theorem writeSlice_take (d xs : List Nat) (h : xs.length ≤ d.length) :
    (writeSlice d 0 xs).take xs.length = xs := by
  rw [writeSlice_eq xs d 0 (by omega)]
  simp only [List.take_zero, List.nil_append, Nat.zero_add]
  rw [List.take_left]

theorem writeSlice_zero_eq (d xs : List Nat) (h : xs.length ≤ d.length) :
    writeSlice d 0 xs = xs ++ d.drop xs.length := by
  rw [writeSlice_eq xs d 0 (by omega)]
  simp only [List.take_zero, List.nil_append, Nat.zero_add]

/-- Inversion of a successful write: the fill pass succeeded on some
intermediate store and send_data ran on it. -/
theorem write_ok_inv (I : Spi σ E) (idle : Bool) (st st1 : Ws2812 σ) (colors : List RGB8)
    (tr : List SpiOp) (hlen : 12 * colors.length ≤ st.data.length)
    (hok : write I idle st colors = some (Except.ok (st1, tr))) :
    send_data I idle
      { spi := st.spi, data := writeSlice st.data 0 (rawStream colors),
        index := 0 + 12 * colors.length } = Except.ok (st1, tr) := by
  have hF := fillLoop_ok colors { st with index := 0 } (by simpa using hlen)
  unfold write at hok
  rw [hF] at hok
  simpa using hok

/-! ### Claim theorems -/

/-- Claim C1: for every 8-bit channel value, write_byte produces exactly
4 output bytes by partitioning the input into four 2-bit groups, most
significant group first, mapping each group through the fixed lookup
00 to 0b10001000, 01 to 0b10001110, 10 to 0b11101000, 11 to 0b11101110
(encodeByte/wlookup); the encoding is total and deterministic over all
256 byte values, and the 4 bytes are stored at the cursor. -/
theorem c1_write_byte_encodes (b : Nat) (st : Ws2812 σ) (hb : b < 256)
    (hroom : st.index + 4 ≤ st.data.length) :
    write_byte st b =
      some { spi := st.spi, data := writeSlice st.data st.index (encodeByte b),
             index := st.index + 4 } ∧ (encodeByte b).length = 4 := by
  constructor
  · rw [write_byte_ok st b hroom, encLoop4_eq_encodeByte b hb]
  · rfl

/-- Witness for C1 at byte 0x6C = 0b01101100 on a 4-slot buffer. -/
theorem c1_witness :
    write_byte { spi := (), data := [0, 0, 0, 0], index := 0 } 108 =
      some { spi := (), data := writeSlice [0, 0, 0, 0] 0 (encodeByte 108),
             index := 0 + 4 } ∧ (encodeByte 108).length = 4 :=
  c1_write_byte_encodes 108 { spi := (), data := [0, 0, 0, 0], index := 0 }
    (by decide) (by decide)

/-- Claim C7 is right about the intent and the code is wrong: the
constructor allocates N * 3 buffer slots while one pixel expands to 12
encoded bytes (the source doc comment itself asks for a buffer of at
least 12 bytes per led).  Already at capacity N = 1 a one-color
sequence, which does not exceed the pixel capacity, drives the fill
cursor to slot 3 of a 3-slot buffer: the out-of-range branch of
write_byte is reached and the call panics (none). -/
theorem c7_capacity_overflow :
    ([{ r := 0, g := 0, b := 0 }] : List RGB8).length ≤ 1 ∧
    (Ws2812.new () 1).data.length = 3 ∧
    write okSpi false (Ws2812.new () 1) [{ r := 0, g := 0, b := 0 }] = none := by
  refine ⟨by decide, by decide, ?_⟩
  rfl

/-- Claim C9: set_led_color then led_color, with no other operation in
between, returns exactly the written color, with the red channel stored
at buffer slot 3i, green at 3i+1 and blue at 3i+2. -/
theorem c9_set_get_roundtrip (st : Ws2812 σ) (n i : Nat) (c : RGB8)
    (hN : st.data.length = 3 * n) (hi : i < n) :
    (set_led_color st i c).bind (fun st1 => led_color st1 i) = some c ∧
    (set_led_color st i c).bind (fun st1 => value_at st1 (3 * i)) = some c.r ∧
    (set_led_color st i c).bind (fun st1 => value_at st1 (3 * i + 1)) = some c.g ∧
    (set_led_color st i c).bind (fun st1 => value_at st1 (3 * i + 2)) = some c.b := by
  obtain ⟨cr, cg, cb⟩ := c
  have hb : i * 3 + 2 < st.data.length := by omega
  have hcomm : 3 * i = i * 3 := Nat.mul_comm 3 i
  simp only [set_led_color]
  rw [if_pos hb]
  simp only [Option.some_bind]
  have e0 : (((st.data.set (i * 3) cr).set (i * 3 + 1) cg).set (i * 3 + 2) cb).get? (i * 3) =
      some cr := by
    rw [getq_set_other _ _ _ _ (by omega), getq_set_other _ _ _ _ (by omega),
      getq_set_self _ _ _ (by omega)]
  have e1 : (((st.data.set (i * 3) cr).set (i * 3 + 1) cg).set (i * 3 + 2) cb).get?
      (i * 3 + 1) = some cg := by
    rw [getq_set_other _ _ _ _ (by omega), getq_set_self _ _ _ (by simp [List.length_set]; omega)]
  have e2 : (((st.data.set (i * 3) cr).set (i * 3 + 1) cg).set (i * 3 + 2) cb).get?
      (i * 3 + 2) = some cb := by
    rw [getq_set_self _ _ _ (by simp [List.length_set]; omega)]
  refine ⟨?_, ?_, ?_, ?_⟩
  · unfold led_color
    dsimp only
    rw [e0, e1, e2]
    rfl
  · simp only [value_at]
    rw [hcomm, e0]
  · simp only [value_at]
    rw [hcomm, e1]
  · simp only [value_at]
    rw [hcomm, e2]

/-- Witness for C9: a 2-pixel store, pixel 1, color (5, 6, 7). -/
theorem c9_witness :
    (set_led_color { spi := (), data := List.replicate 6 0, index := 0 } 1
        { r := 5, g := 6, b := 7 }).bind (fun st1 => led_color st1 1) =
      some { r := 5, g := 6, b := 7 } ∧
    (set_led_color { spi := (), data := List.replicate 6 0, index := 0 } 1
        { r := 5, g := 6, b := 7 }).bind (fun st1 => value_at st1 (3 * 1)) = some 5 ∧
    (set_led_color { spi := (), data := List.replicate 6 0, index := 0 } 1
        { r := 5, g := 6, b := 7 }).bind (fun st1 => value_at st1 (3 * 1 + 1)) = some 6 ∧
    (set_led_color { spi := (), data := List.replicate 6 0, index := 0 } 1
        { r := 5, g := 6, b := 7 }).bind (fun st1 => value_at st1 (3 * 1 + 2)) = some 7 :=
  c9_set_get_roundtrip { spi := (), data := List.replicate 6 0, index := 0 } 2 1
    { r := 5, g := 6, b := 7 } (by decide) (by decide)

/-- Claim C10: set_led_color mutates only the three slots 3i, 3i+1,
3i+2: every other slot, the buffer length, the fill cursor and the SPI
handle are unchanged. -/
theorem c10_set_frame_effect (st : Ws2812 σ) (n i : Nat) (c : RGB8) (j : Nat)
    (hN : st.data.length = 3 * n) (hi : i < n) (hj1 : j ≠ 3 * i) (hj2 : j ≠ 3 * i + 1)
    (hj3 : j ≠ 3 * i + 2) :
    (set_led_color st i c).map (fun st1 => st1.index) = some st.index ∧
    (set_led_color st i c).map (fun st1 => st1.spi) = some st.spi ∧
    (set_led_color st i c).map (fun st1 => st1.data.length) = some st.data.length ∧
    (set_led_color st i c).map (fun st1 => st1.data.get? j) = some (st.data.get? j) := by
  have hb : i * 3 + 2 < st.data.length := by omega
  simp only [set_led_color]
  rw [if_pos hb]
  have e0 : (((st.data.set (i * 3) c.r).set (i * 3 + 1) c.g).set (i * 3 + 2) c.b).get? j =
      st.data.get? j := by
    rw [getq_set_other _ _ _ _ (by omega), getq_set_other _ _ _ _ (by omega),
      getq_set_other _ _ _ _ (by omega)]
  refine ⟨rfl, rfl, by simp [List.length_set], ?_⟩
  simp only [Option.map_some']
  rw [e0]

/-- Witness for C10: a 2-pixel store, pixel 1, untouched slot 2. -/
theorem c10_witness :
    (set_led_color { spi := (), data := List.replicate 6 9, index := 0 } 1
        { r := 5, g := 6, b := 7 }).map (fun st1 => st1.index) = some 0 ∧
    (set_led_color { spi := (), data := List.replicate 6 9, index := 0 } 1
        { r := 5, g := 6, b := 7 }).map (fun st1 => st1.spi) = some () ∧
    (set_led_color { spi := (), data := List.replicate 6 9, index := 0 } 1
        { r := 5, g := 6, b := 7 }).map (fun st1 => st1.data.length) =
      some (List.replicate 6 9).length ∧
    (set_led_color { spi := (), data := List.replicate 6 9, index := 0 } 1
        { r := 5, g := 6, b := 7 }).map (fun st1 => st1.data.get? 2) =
      some ((List.replicate 6 9).get? 2) :=
  c10_set_frame_effect { spi := (), data := List.replicate 6 9, index := 0 } 2 1
    { r := 5, g := 6, b := 7 } 2 (by decide) (by decide) (by decide) (by decide) (by decide)

set_option maxRecDepth 100000 in
/-- Claim C2 as stated is false: writing the single color (0, 0, 0)
through the streaming write succeeds, but led_color on pixel 0 of the
resulting store returns (136, 136, 136) — the first three waveform
bytes — not the written color. -/
theorem c2_counterexample :
    write okSpi false (Ws2812.new () 4) [{ r := 0, g := 0, b := 0 }] =
      some (Except.ok
        (({ spi := (), data := List.replicate 12 136, index := 12 } : Ws2812 Unit),
          sendDataOps false (List.replicate 12 136))) ∧
    led_color ({ spi := (), data := List.replicate 12 136, index := 12 } : Ws2812 Unit) 0 =
      some { r := 136, g := 136, b := 136 } ∧
    ({ r := 136, g := 136, b := 136 } : RGB8) ≠ { r := 0, g := 0, b := 0 } := by
  refine ⟨rfl, rfl, by decide⟩

/-- Claim C2 amended: after a successful streaming write, the filled
buffer prefix holds the 4-byte waveform encodings of each input color's
green, red and blue channels in input order (not the raw channels), and
led_color on pixel i therefore returns the three raw waveform bytes at
slots 3i, 3i+1, 3i+2 of that encoded data, not the written color. -/
theorem c2_amended_buffer_holds_waveforms (I : Spi σ E) (idle : Bool) (st st1 : Ws2812 σ)
    (colors : List RGB8) (tr : List SpiOp) (i : Nat)
    (hchan : ∀ c ∈ colors, c.r < 256 ∧ c.g < 256 ∧ c.b < 256)
    (hlen : 12 * colors.length ≤ st.data.length)
    (hi : 3 * i + 2 < 12 * colors.length)
    (hok : write I idle st colors = some (Except.ok (st1, tr))) :
    st1.data.take (12 * colors.length) = encodedStream colors ∧
    led_color st1 i =
      some { r := (encodedStream colors).getD (3 * i) 0,
             g := (encodedStream colors).getD (3 * i + 1) 0,
             b := (encodedStream colors).getD (3 * i + 2) 0 } := by
  have hsd := write_ok_inv I idle st st1 colors tr hlen hok
  have hstore := send_data_ok I idle _ st1 tr hsd
  have hdata : st1.data = encodedStream colors ++ st.data.drop (encodedStream colors).length := by
    rw [hstore.2.1]
    dsimp only
    rw [writeSlice_zero_eq st.data (rawStream colors) (by rw [length_rawStream]; omega)]
    rw [rawStream_eq_encodedStream colors hchan]
  have hlenE : (encodedStream colors).length = 12 * colors.length := length_encodedStream colors
  have htake : st1.data.take (12 * colors.length) = encodedStream colors := by
    rw [hdata, ← hlenE, List.take_left]
  refine ⟨htake, ?_⟩
  have hcomm : 3 * i = i * 3 := Nat.mul_comm 3 i
  have g0 : st1.data.get? (i * 3) = some ((encodedStream colors).getD (3 * i) 0) := by
    rw [hdata, List.get?_append (by rw [hlenE]; omega),
      getq_eq_getD _ _ (by rw [hlenE]; omega), hcomm]
  have g1 : st1.data.get? (i * 3 + 1) = some ((encodedStream colors).getD (3 * i + 1) 0) := by
    rw [hdata, List.get?_append (by rw [hlenE]; omega),
      getq_eq_getD _ _ (by rw [hlenE]; omega), hcomm]
  have g2 : st1.data.get? (i * 3 + 2) = some ((encodedStream colors).getD (3 * i + 2) 0) := by
    rw [hdata, List.get?_append (by rw [hlenE]; omega),
      getq_eq_getD _ _ (by rw [hlenE]; omega), hcomm]
  unfold led_color
  dsimp only
  rw [g0, g1, g2]
  rfl

set_option maxRecDepth 100000 in
/-- Witness for the amended C2: one color (1, 2, 3) written into a
12-slot store; pixel 0 reads back the first waveform bytes. -/
theorem c2_witness :
    ({ spi := (), data := [136, 136, 136, 232, 136, 136, 136, 142, 136, 136, 136, 238], index := 12 } : Ws2812 Unit).data.take
        (12 * ([{ r := 1, g := 2, b := 3 }] : List RGB8).length) =
      encodedStream [{ r := 1, g := 2, b := 3 }] ∧
    led_color ({ spi := (), data := [136, 136, 136, 232, 136, 136, 136, 142, 136, 136, 136, 238], index := 12 } : Ws2812 Unit) 0 =
      some { r := (encodedStream [{ r := 1, g := 2, b := 3 }]).getD (3 * 0) 0,
             g := (encodedStream [{ r := 1, g := 2, b := 3 }]).getD (3 * 0 + 1) 0,
             b := (encodedStream [{ r := 1, g := 2, b := 3 }]).getD (3 * 0 + 2) 0 } :=
  c2_amended_buffer_holds_waveforms okSpi false
    { spi := (), data := List.replicate 12 0, index := 5 }
    { spi := (), data := [136, 136, 136, 232, 136, 136, 136, 142, 136, 136, 136, 238], index := 12 }
    [{ r := 1, g := 2, b := 3 }] (sendDataOps false (encodedStream [{ r := 1, g := 2, b := 3 }]))
    0 (by decide) (by decide) (by decide) rfl

/-- Claim C3: the streaming write resets the fill cursor, encodes green,
red, blue per color advancing the cursor by 4 per channel (12 per
pixel), and a successful call transmits exactly the filled buffer
prefix: the wire trace is sendDataOps over the encoded stream, whose
payload is 12 * count bytes, not a full-capacity-worth. -/
theorem c3_write_all_transmits_encoded (I : Spi σ E) (idle : Bool) (st st1 : Ws2812 σ)
    (colors : List RGB8) (tr : List SpiOp)
    (hchan : ∀ c ∈ colors, c.r < 256 ∧ c.g < 256 ∧ c.b < 256)
    (hlen : 12 * colors.length ≤ st.data.length)
    (hok : write I idle st colors = some (Except.ok (st1, tr))) :
    st1.index = 12 * colors.length ∧
    st1.data.take st1.index = encodedStream colors ∧
    (encodedStream colors).length = 12 * colors.length ∧
    tr = sendDataOps idle (encodedStream colors) := by
  have hsd := write_ok_inv I idle st st1 colors tr hlen hok
  have hstore := send_data_ok I idle _ st1 tr hsd
  have hidx : st1.index = 12 * colors.length := by
    rw [hstore.2.2]
    dsimp only
    rw [Nat.zero_add]
  have htakeRaw : (writeSlice st.data 0 (rawStream colors)).take (12 * colors.length) =
      encodedStream colors := by
    rw [← length_rawStream colors,
      writeSlice_take st.data (rawStream colors) (by rw [length_rawStream]; omega),
      rawStream_eq_encodedStream colors hchan]
  refine ⟨hidx, ?_, length_encodedStream colors, ?_⟩
  · rw [hidx, hstore.2.1]
    dsimp only
    exact htakeRaw
  · rw [hstore.1]
    dsimp only
    rw [Nat.zero_add, htakeRaw]

set_option maxRecDepth 100000 in
/-- Witness for C3: one color (1, 2, 3) written into a 12-slot store
with a stale cursor value 5; the call resets it and transmits 12
payload bytes. -/
theorem c3_witness :
    ({ spi := (), data := [136, 136, 136, 232, 136, 136, 136, 142, 136, 136, 136, 238], index := 12 } : Ws2812 Unit).index =
      12 * ([{ r := 1, g := 2, b := 3 }] : List RGB8).length ∧
    ({ spi := (), data := [136, 136, 136, 232, 136, 136, 136, 142, 136, 136, 136, 238], index := 12 } : Ws2812 Unit).data.take
        ({ spi := (), data := [136, 136, 136, 232, 136, 136, 136, 142, 136, 136, 136, 238], index := 12 } : Ws2812 Unit).index =
      encodedStream [{ r := 1, g := 2, b := 3 }] ∧
    (encodedStream [{ r := 1, g := 2, b := 3 }]).length =
      12 * ([{ r := 1, g := 2, b := 3 }] : List RGB8).length ∧
    sendDataOps false (encodedStream [{ r := 1, g := 2, b := 3 }]) =
      sendDataOps false (encodedStream [{ r := 1, g := 2, b := 3 }]) :=
  c3_write_all_transmits_encoded okSpi false
    { spi := (), data := List.replicate 12 0, index := 5 }
    { spi := (), data := [136, 136, 136, 232, 136, 136, 136, 142, 136, 136, 136, 238], index := 12 }
    [{ r := 1, g := 2, b := 3 }] (sendDataOps false (encodedStream [{ r := 1, g := 2, b := 3 }]))
    (by decide) (by decide) rfl

/-- Claim C8: the bytes put on the wire by a streaming write do not
depend on the prior buffer contents or cursor value: two stores with
the same SPI handle and capacity produce the identical operation trace
and the identical error outcome on the same input, whatever their prior
state. -/
theorem c8_transmission_independent_of_prior_state (I : Spi σ E) (idle : Bool)
    (st1 st2 : Ws2812 σ) (colors : List RGB8)
    (hspi : st1.spi = st2.spi) (hlen : st1.data.length = st2.data.length)
    (hcap : 12 * colors.length ≤ st1.data.length) :
    (write I idle st1 colors).map traceOf = (write I idle st2 colors).map traceOf ∧
    (write I idle st1 colors).map errOf = (write I idle st2 colors).map errOf := by
  have hF1 := fillLoop_ok colors { st1 with index := 0 } (by simpa using hcap)
  have hF2 := fillLoop_ok colors { st2 with index := 0 } (by simp; omega)
  have htake1 : (writeSlice st1.data 0 (rawStream colors)).take (0 + 12 * colors.length) =
      rawStream colors := by
    rw [Nat.zero_add, ← length_rawStream colors,
      writeSlice_take st1.data (rawStream colors) (by rw [length_rawStream]; omega)]
  have htake2 : (writeSlice st2.data 0 (rawStream colors)).take (0 + 12 * colors.length) =
      rawStream colors := by
    rw [Nat.zero_add, ← length_rawStream colors,
      writeSlice_take st2.data (rawStream colors) (by rw [length_rawStream]; omega)]
  unfold write
  rw [hF1, hF2]
  simp only [Option.map_some']
  rw [send_data_eq, send_data_eq]
  dsimp only
  rw [htake1, htake2, hspi]
  constructor
  · rw [traceOf_map, traceOf_map]
  · rw [errOf_map, errOf_map]

/-- Witness for C8: two 12-slot stores with different prior contents and
cursors, same one-color input. -/
theorem c8_witness :
    (write okSpi false { spi := (), data := List.replicate 12 7, index := 5 }
        [{ r := 9, g := 8, b := 7 }]).map traceOf =
      (write okSpi false { spi := (), data := List.replicate 12 0, index := 0 }
        [{ r := 9, g := 8, b := 7 }]).map traceOf ∧
    (write okSpi false { spi := (), data := List.replicate 12 7, index := 5 }
        [{ r := 9, g := 8, b := 7 }]).map errOf =
      (write okSpi false { spi := (), data := List.replicate 12 0, index := 0 }
        [{ r := 9, g := 8, b := 7 }]).map errOf :=
  c8_transmission_independent_of_prior_state okSpi false
    { spi := (), data := List.replicate 12 7, index := 5 }
    { spi := (), data := List.replicate 12 0, index := 0 }
    [{ r := 9, g := 8, b := 7 }] rfl (by decide) (by decide)

set_option maxRecDepth 100000 in
/-- Claim C4 as stated is false: in a successful transmission of the
one-byte payload 136 the operation right after the lead send is the
payload send itself, with no block-read of the lead byte in between. -/
theorem c4_counterexample :
    send_data okSpi false { spi := (), data := [136, 0, 0], index := 1 } =
      Except.ok (({ spi := (), data := [136, 0, 0], index := 1 } : Ws2812 Unit),
        sendDataOps false [136]) ∧
    (sendDataOps false [136]).get? 0 = some (SpiOp.send 0) ∧
    (sendDataOps false [136]).get? 1 = some (SpiOp.send 136) ∧
    some (SpiOp.send 136) ≠ some SpiOp.read := by
  refine ⟨rfl, rfl, rfl, by decide⟩

/-- Claim C4 amended: the zero lead byte is sent without any immediate
read; every padding or payload send is paired with its own read, and
the single final read at the very end of the sequence is what retires
the lead byte: a successful send_data trace is the lone lead send,
then the paired section, then one closing read. -/
theorem c4_amended_lead_read_deferred (I : Spi σ E) (idle : Bool) (st st1 : Ws2812 σ)
    (tr : List SpiOp) (h : send_data I idle st = Except.ok (st1, tr)) :
    tr = sendDataOps idle (st.data.take st.index) ∧
    tr.head? = some (SpiOp.send 0) ∧
    tr.getLast? = some SpiOp.read := by
  have h1 := (send_data_ok I idle st st1 tr h).1
  refine ⟨h1, ?_, ?_⟩
  · rw [h1]
    rfl
  · rw [h1]
    unfold sendDataOps
    exact List.getLast?_concat _

set_option maxRecDepth 100000 in
/-- Witness for the amended C4: payload of one byte on the reliable
bus, idle padding disabled. -/
theorem c4_witness :
    sendDataOps false (List.take 1 [136]) = sendDataOps false
      (({ spi := (), data := [136, 0, 0], index := 1 } : Ws2812 Unit).data.take
        ({ spi := (), data := [136, 0, 0], index := 1 } : Ws2812 Unit).index) ∧
    (sendDataOps false (List.take 1 [136])).head? = some (SpiOp.send 0) ∧
    (sendDataOps false (List.take 1 [136])).getLast? = some SpiOp.read :=
  c4_amended_lead_read_deferred okSpi false
    { spi := (), data := [136, 0, 0], index := 1 }
    { spi := (), data := [136, 0, 0], index := 1 }
    (sendDataOps false (List.take 1 [136])) rfl

set_option maxRecDepth 100000 in
/-- Claim C5 as stated is false: a successful transmission with empty
payload and idle padding disabled has a wire trace whose first two
operations are both sends (the lead send and the first trailing-pad
send), so the sequence does not strictly alternate send/read. -/
theorem c5_counterexample :
    send_data okSpi false { spi := (), data := ([] : List Nat), index := 0 } =
      Except.ok (({ spi := (), data := [], index := 0 } : Ws2812 Unit),
        sendDataOps false []) ∧
    altern (sendDataOps false []) = false := by
  exact ⟨rfl, rfl⟩

/-- Claim C5 amended: a successful transmit issues a total send count of
1 + (140 if idle padding) + payload byte count + 140, and an equal
total receive count; the pairing holds per padding/payload byte while
the lead send is retired only by the final read, so the trace is not
strictly alternating at its two ends. -/
theorem c5_amended_send_receive_totals (I : Spi σ E) (idle : Bool) (st st1 : Ws2812 σ)
    (tr : List SpiOp) (h : send_data I idle st = Except.ok (st1, tr)) :
    tr.countP (fun op => isSend op) =
      1 + (if idle then 140 else 0) + (st.data.take st.index).length + 140 ∧
    tr.countP (fun op => !isSend op) =
      1 + (if idle then 140 else 0) + (st.data.take st.index).length + 140 := by
  have h1 := (send_data_ok I idle st st1 tr h).1
  rw [h1]
  cases idle with
  | false =>
    simp only [sendDataOps, if_neg (by simp : ¬ (false = true)), List.nil_append,
      List.countP_append, countP_payloadOps_send, countP_payloadOps_read, padOps,
      List.length_replicate, List.countP_cons, List.countP_nil, List.cons_append]
    constructor <;> simp [isSend] <;> omega
  | true =>
    simp only [sendDataOps, if_pos (rfl : true = true), List.countP_append,
      countP_payloadOps_send, countP_payloadOps_read, padOps, List.length_replicate,
      List.countP_cons, List.countP_nil, List.cons_append, if_true]
    constructor <;> simp [isSend] <;> omega

set_option maxRecDepth 100000 in
/-- Witness for the amended C5: one-byte payload, idle padding
enabled: 282 sends and 282 reads. -/
theorem c5_witness :
    (sendDataOps true (List.take 1 [7])).countP (fun op => isSend op) =
      1 + (if true then 140 else 0) + (List.take 1 [7]).length + 140 ∧
    (sendDataOps true (List.take 1 [7])).countP (fun op => !isSend op) =
      1 + (if true then 140 else 0) + (List.take 1 [7]).length + 140 :=
  c5_amended_send_receive_totals okSpi true
    { spi := (), data := [7], index := 1 } { spi := (), data := [7], index := 1 }
    (sendDataOps true (List.take 1 [7])) rfl

/-- Claim C6: with an SPI channel whose k-th operation fails, a
transmission whose full sequence would be longer than k stops at
exactly the failing operation — the performed trace is precisely the
first k+1 operations of sendDataOps, nothing after it — and the
channel's error value is returned to the caller unchanged. -/
theorem c6_first_failure_aborts (e : E) (idle : Bool) (st : Ws2812 Nat) (k : Nat)
    (hspi : st.spi = 0) (hk : k < (sendDataOps idle (st.data.take st.index)).length) :
    send_data (failSpi k e) idle st =
      Except.error (e, (sendDataOps idle (st.data.take st.index)).take (k + 1)) := by
  rw [send_data_eq, hspi]
  rw [runOps_failSpi_err k e _ 0 [] (by omega) (by rw [Nat.zero_add]; exact hk)]
  simp [Except.map]

set_option maxRecDepth 100000 in
/-- Witness for C6: the 4th operation (index 3, a trailing-pad send)
fails with error value 37; the transmission stops there. -/
theorem c6_witness :
    send_data (failSpi 3 37) false { spi := 0, data := ([] : List Nat), index := 0 } =
      Except.error (37, (sendDataOps false (([] : List Nat).take 0)).take (3 + 1)) :=
  c6_first_failure_aborts 37 false { spi := 0, data := [], index := 0 } 3 rfl (by decide)

end Ws2812Spi
